import Mathlib

/-!
Shallow embedding of the mcsv library (src/include/mcsv/mcsv.hpp).

Storage (`default_loader`) is modelled by `Mcsv.Loader`, a view (`dataframe`)
by `Mcsv.Frame`.  File I/O is outside the embedding: the loader constructor is
modelled on the list of lines of the file.  C++ machine integers are modelled
by `Int` (unbounded; the claims under study concern empty/malformed cells, not
overflow).  `shared_ptr` identity of the storage is modelled by structural
equality of `Loader`.
-/

namespace Mcsv

/-- The six whitespace characters recognised by `std::isspace` in the "C" locale
(space, tab, newline, vertical tab, form feed, carriage return). -/
def isSpaceCpp (c : Char) : Bool :=
  c == ' ' || c == '\t' || c == '\n' || c == Char.ofNat 11 || c == Char.ofNat 12 || c == '\r'

/-- Erase trailing whitespace of a token, mirroring the
`cell.erase(std::find_if(cell.rbegin(), ...).base(), cell.end())` in
`default_loader::extract_line`. -/
def trimTrailing (cs : List Char) : List Char :=
  ((cs.reverse).dropWhile isSpaceCpp).reverse

/-- Split a character list at commas, the delimiter used by `std::getline`
inside `default_loader::extract_line`. -/
def splitCommaChars : List Char → List (List Char)
  | [] => [[]]
  | c :: cs =>
    if c = ',' then [] :: splitCommaChars cs
    else
      match splitCommaChars cs with
      | [] => [[c]]
      | f :: rest => (c :: f) :: rest

/-- One token of `extract_line`: leading whitespace is consumed by
`linestream >> std::ws`, trailing whitespace is erased explicitly. -/
def trimCpp (cs : List Char) : String :=
  String.mk (trimTrailing (cs.dropWhile isSpaceCpp))

/-- `default_loader::extract_line` without the resize step.  `std::getline`
splits the line at commas; a final field consisting only of whitespace
(including an empty final field) is dropped, because `std::ws` reaches
end-of-stream on it and the subsequent `getline` fails, ending the loop. -/
def tokenize (line : String) : List String :=
  let fs := splitCommaChars line.toList
  let fs2 := if (fs.getLastD []).all isSpaceCpp then fs.dropLast else fs
  fs2.map trimCpp

/-- `std::vector<std::string>::resize(n)`: truncate to `n` elements, or pad at
the end with default-constructed (empty) strings. -/
def resizeCpp (l : List String) (n : Nat) : List String :=
  l.take n ++ List.replicate (n - l.length) ""

/-- `default_loader::extract_line`: tokenize the line, then resize the cell
vector to the expected size when one is given. -/
def extractLine (line : String) (expected : Option Nat) : List String :=
  match expected with
  | none => tokenize line
  | some n => resizeCpp (tokenize line) n

/-- Lexicographic comparison of character lists by character value, the order
`std::string::operator<` induces (for the ASCII data of the tests the byte
order and the scalar-value order agree). -/
def ltChars : List Char → List Char → Bool
  | [], [] => false
  | [], _ :: _ => true
  | _ :: _, [] => false
  | a :: as, b :: bs => if a < b then true else if b < a then false else ltChars as bs

/-- `std::string` `operator<`. -/
def ltStr (a b : String) : Bool := ltChars a.toList b.toList

/-- Insert a string into a `<`-sorted list, keeping it sorted. -/
def insertStr (s : String) : List String → List String
  | [] => [s]
  | t :: ts => if ltStr t s then t :: insertStr s ts else s :: t :: ts

/-- `std::sort` on a vector of strings: the ascending sorted permutation.
(Equal elements are equal strings, so the result is uniquely determined even
though `std::sort` is unstable.) -/
def sortCpp : List String → List String
  | [] => []
  | s :: ss => insertStr s (sortCpp ss)

/-- Helper of `dedupAdjacent`: compaction relative to the previous kept value. -/
def dedupAdjacentGo (prev : String) : List String → List String
  | [] => []
  | x :: xs => if x = prev then dedupAdjacentGo prev xs else x :: dedupAdjacentGo x xs

/-- The compacted value sequence `std::unique` writes to the front of the
range (one representative per run of adjacent equal elements). -/
def dedupAdjacent : List String → List String
  | [] => []
  | a :: rest => a :: dedupAdjacentGo a rest

/-- The full vector contents after `std::unique` WITHOUT a subsequent `erase`
(as in `throw_if_duplicates`): the positions before the returned iterator hold
the compacted values; the tail positions are never written and keep their
previous values (the implementation only move-assigns onto earlier positions,
and a moved-from short string keeps its value under the small-string
optimisation — for the decisive inputs below no move happens at all). -/
def uniqueCpp (l : List String) : List String :=
  dedupAdjacent l ++ l.drop (dedupAdjacent l).length

/-- `default_loader::throw_if_duplicates`: sort a copy of the header, apply
`std::unique` to a second copy without erasing, and compare the two
same-length vectors; an exception is thrown iff they differ. -/
def throwIfDuplicates (header : List String) : Bool :=
  decide (uniqueCpp (sortCpp header) ≠ sortCpp header)

/-- The storage class `default_loader`: parsed header and body. -/
structure Loader where
  header : List String
  data : List (List String)
deriving DecidableEq

/-- The `default_loader` constructor, modelled on the list of lines of the
file (`std::getline(file, line, '\n')` splits the file at newlines; the
path-existence check and file reading are outside the embedding).  The first
line is the header; each body line is rectangularised to the header length.
The header map is modelled by `headerMapAt` below. -/
def loadLoader (lines : List String) : Except String Loader :=
  let header := tokenize (lines.headD "")
  if throwIfDuplicates header then
    .error "csv-file contains multiple columns with the same name!"
  else
    .ok { header := header
          data := (lines.drop 1).map (fun l => extractLine l (some header.length)) }

/-- `m_header_map` lookup: the map is filled by `m_header_map[m_header[i]] = i`
for increasing `i`, so a later index overwrites an earlier one.  `none` models
`std::map::at` throwing `std::out_of_range`. -/
def headerMapAt (header : List String) (name : String) : Option Nat :=
  match header with
  | [] => none
  | h :: t =>
    match headerMapAt t name with
    | some i => some (i + 1)
    | none => if h = name then some 0 else none

/-- Outcome of `default_loader::at`: a thrown range error, an out-of-bounds
`operator[]` access (undefined behaviour in C++), or the stored cell. -/
inductive AtResult where
  | rangeError
  | undefinedAccess
  | cell (s : String)
deriving DecidableEq

/-- `default_loader::at(row, col)`: throws when `m_data.size() < row` or
`m_header.size() < col` (note: strict `<`, as in the source), otherwise
evaluates `m_data[row][col]` with unchecked `operator[]`. -/
def loaderAt (L : Loader) (row col : Nat) : AtResult :=
  if L.data.length < row then .rangeError
  else if L.header.length < col then .rangeError
  else
    match L.data[row]? >>= fun r => r[col]? with
    | some s => .cell s
    | none => .undefinedAccess

/-- A `dataframe`: a shared storage plus one row mask and one column mask.
The compile-time column-count parameter `C` appears in the model only through
the runtime checks the source performs (`cols() != C` in the private
constructor, modelled where views are built with a known count). -/
structure Frame where
  loader : Loader
  rowMask : List Bool
  colMask : List Bool
deriving DecidableEq

/-- Number of set bits of a mask (`rows()` / `cols()`). -/
def countTrue (mask : List Bool) : Nat := mask.count true

/-- Semantics of `masked_iterable`: visit the container elements whose mask
bit is set, in container (storage) order.  (`masked_iterable` itself throws on
a size mismatch; callers below establish equal sizes.) -/
def maskedFilter {α : Type} (xs : List α) (mask : List Bool) : List α :=
  (xs.zip mask).filterMap (fun p => if p.2 then some p.1 else none)

/-- The public `dataframe` constructor: all rows and all columns active. -/
def initFrame (L : Loader) : Frame :=
  { loader := L
    rowMask := List.replicate L.data.length true
    colMask := List.replicate L.header.length true }

/-- Value of the digit run accepted by stream extraction. -/
def digitsToNat (ds : List Char) : Nat :=
  ds.foldl (fun n c => 10 * n + (c.toNat - '0'.toNat)) 0

/-- Core of `std::stringstream >> int`: skip leading whitespace, accept an
optional sign and a digit run; `none` when extraction fails (no digits).
Overflow clamping is not modelled (`Int` is unbounded). -/
def sstreamIntCore (cs : List Char) : Option Int :=
  let cs1 := cs.dropWhile isSpaceCpp
  match cs1 with
  | '-' :: r =>
    let ds := r.takeWhile (fun c => c.isDigit)
    if ds.isEmpty then none else some (-(digitsToNat ds : Int))
  | '+' :: r =>
    let ds := r.takeWhile (fun c => c.isDigit)
    if ds.isEmpty then none else some (digitsToNat ds : Int)
  | r =>
    let ds := r.takeWhile (fun c => c.isDigit)
    if ds.isEmpty then none else some (digitsToNat ds : Int)

/-- `sstr >> val` for an `int`: on failed extraction the stored value is 0
(the C++11 rule; `val` was also value-initialised to 0). -/
def sstreamInt (s : String) : Int := (sstreamIntCore s.toList).getD 0

/-- Whether stream extraction of an `int` from `s` fails entirely. -/
def extractionFails (s : String) : Bool := (sstreamIntCore s.toList).isNone

/-- `dataframe::convert<T>` for a non-reference arithmetic `T` (the extraction
paths: `cols_to_vectors`, `rows_to_vectors`, eigen export): the
`is_arithmetic && empty` branch yields 0, otherwise stream extraction. -/
def convertIntVal (s : String) : Int :=
  if s = "" then 0 else sstreamInt s

/-- `dataframe::convert<T>` as instantiated by `compare_tuple_and_string_array`,
where `T` is deduced as a const reference (`decltype(std::get<idx>(tuple))`),
so `std::is_arithmetic_v<T>` is false and the stream branch is always taken. -/
def convertIntRef (s : String) : Int := sstreamInt s

/-- `dataframe::compare_tuple_and_string_array`: the fold
`pred(convert(array[idx]), tuple[idx]) && ...` over all tuple positions. -/
def compareTupleAndStringArray (pred : Int → Int → Bool) (targets : List Int)
    (cells : List String) : Bool :=
  (cells.zip targets).all (fun p => pred (convertIntRef p.1) p.2)

/-- `dataframe::row_as_str_array<N>`: a default-initialised
`std::array<std::string, N>` (all cells `""`) filled from the masked column
iteration of the row.  `masked_iterable` throws when the row length differs
from the mask length; under the loader invariant the masked iteration yields
at most `n` cells and the array keeps `""` in unwritten slots, which
`resizeCpp` reproduces. -/
def rowAsStrArray (n : Nat) (row : List String) (mask : List Bool) : List String :=
  resizeCpp (maskedFilter row mask) n

/-- `dataframe::row_wise_comparison`: guard that the active column count
equals the tuple arity, then keep an active row iff the conjunction of the
pairwise comparisons holds; inactive rows stay inactive.  The loop indexes
`m_loader->data()[i]` for `i` below the row-mask size, which the mask-length
invariant keeps in bounds (the zip reproduces it there). -/
def rowWiseComparison (df : Frame) (pred : Int → Int → Bool) (targets : List Int) :
    Except String Frame :=
  if countTrue df.colMask ≠ targets.length then
    .error "row-wise comparison only possible if tuple size matches column number"
  else
    .ok { loader := df.loader
          rowMask := (df.rowMask.zip df.loader.data).map
            (fun p => p.1 && compareTupleAndStringArray pred targets
              (rowAsStrArray targets.length p.2 df.colMask))
          colMask := df.colMask }

/-- `dataframe::operator==` (predicate `std::equal_to`). -/
def frameEq (df : Frame) (targets : List Int) : Except String Frame :=
  rowWiseComparison df (fun a b => a == b) targets

/-- `dataframe::operator<` (predicate `std::less`). -/
def frameLt (df : Frame) (targets : List Int) : Except String Frame :=
  rowWiseComparison df (fun a b => decide (a < b)) targets

/-- `dataframe::operator<=` (predicate `std::less_equal`). -/
def frameLe (df : Frame) (targets : List Int) : Except String Frame :=
  rowWiseComparison df (fun a b => decide (a ≤ b)) targets

/-- `dataframe::operator>` (predicate `std::greater`). -/
def frameGt (df : Frame) (targets : List Int) : Except String Frame :=
  rowWiseComparison df (fun a b => decide (b < a)) targets

/-- `dataframe::operator>=` (predicate `std::greater_equal`). -/
def frameGe (df : Frame) (targets : List Int) : Except String Frame :=
  rowWiseComparison df (fun a b => decide (b ≤ a)) targets

/-- `dataframe::operator&&`: requires identical storage (shared-pointer
identity, modelled structurally), then takes the pointwise AND of the row
masks and the column mask of the left operand. -/
def andFrame (a b : Frame) : Except String Frame :=
  if a.loader ≠ b.loader then
    .error "cannot logically combine dataframes of differen csv-files"
  else
    .ok { loader := a.loader
          rowMask := List.zipWith (fun x y => x && y) a.rowMask b.rowMask
          colMask := a.colMask }

/-- `dataframe::operator||`: pointwise OR of the row masks, column mask of the
left operand. -/
def orFrame (a b : Frame) : Except String Frame :=
  if a.loader ≠ b.loader then
    .error "cannot logically combine dataframes of differen csv-files"
  else
    .ok { loader := a.loader
          rowMask := List.zipWith (fun x y => x || y) a.rowMask b.rowMask
          colMask := a.colMask }

/-- One step of the column-mask construction of `dataframe::operator()`:
set the bit `m_loader->header_map().at(col)`; `none` models the
`std::out_of_range` from `std::map::at` on an unknown name. -/
def projStep (header : List String) (acc : Option (List Bool)) (name : String) :
    Option (List Bool) :=
  match acc with
  | none => none
  | some m =>
    match headerMapAt header name with
    | none => none
    | some i => some (m.set i true)

/-- The column-mask construction of `dataframe::operator()`: start from an
all-false mask of the old mask's size and set the looked-up bit for each
name in turn. -/
def projMask (header : List String) (width : Nat) (names : List String) :
    Option (List Bool) :=
  names.foldl (projStep header) (some (List.replicate width false))

/-- `dataframe::operator()(names...)`: build the new column mask, keep the row
mask, and construct a `dataframe<loader_t, N>`, whose constructor checks
`cols() == N`. -/
def project (df : Frame) (names : List String) : Except String Frame :=
  match projMask df.loader.header df.colMask.length names with
  | none => .error "header_map out_of_range"
  | some m =>
    if countTrue m ≠ names.length then
      .error "internal error: column mismatch in constructor"
    else
      .ok { loader := df.loader, rowMask := df.rowMask, colMask := m }

/-! ### General lemmas about the embedded operations -/

/-- Element lookup through the zip-then-map shape used by `rowWiseComparison`. -/
theorem zip_map_getElem? {α β γ : Type} (F : α × β → γ) (a : List α) (d : List β)
    (i : Nat) : ((a.zip d).map F)[i]? = a[i]?.bind (fun x => d[i]?.map (fun y => F (x, y))) := by
  induction a generalizing d i with
  | nil => simp
  | cons x xs ih =>
    cases d with
    | nil => cases i <;> simp
    | cons y ys =>
      cases i with
      | zero => simp
      | succ n => simpa using ih ys n

/-- Element lookup through `List.zipWith`, as used by the logical operators. -/
theorem zipWith_getElem? (f : Bool → Bool → Bool) (a b : List Bool) (i : Nat) :
    (List.zipWith f a b)[i]? = a[i]?.bind (fun x => b[i]?.map (fun y => f x y)) := by
  induction a generalizing b i with
  | nil => simp
  | cons x xs ih =>
    cases b with
    | nil => cases i <;> simp
    | cons y ys =>
      cases i with
      | zero => simp
      | succ n => simpa using ih ys n

end Mcsv

namespace Mcsv

/-! ### Claims -/

/-- C3 (code evaluation): `default_loader::at` compares with strict `<`
(`m_data.size() < row`), so on the storage with header `["a"]` and the single
row `["1"]`, `at(1, 0)` passes both bounds checks and performs the
out-of-bounds access `m_data[1][0]` (undefined behaviour) instead of throwing
the RangeError the claim requires; `at(0, 0)` returns the stored cell and only
`at(2, 0)` throws. -/
theorem c3_at_bounds_code_eval :
    loaderAt { header := ["a"], data := [["1"]] } 0 0 = .cell "1" ∧
    loaderAt { header := ["a"], data := [["1"]] } 1 0 = .undefinedAccess ∧
    AtResult.undefinedAccess ≠ AtResult.rangeError ∧
    loaderAt { header := ["a"], data := [["1"]] } 2 0 = .rangeError :=
  ⟨rfl, rfl, by decide, rfl⟩

/-- C4 (code evaluation): `throw_if_duplicates` applies `std::unique` to the
sorted copy but never erases the compacted-away tail, and then compares the
full vectors.  For the header line `a,a` the algorithm performs no write at
all, the vectors compare equal, and loading succeeds with the duplicated
header `["a", "a"]` — no FormatError, contradicting the claim's
"fails ... if ... two equal tokens".  The spec's own example `a,a,b` does
throw (there a later distinct element is moved over the duplicate), and a
duplicate-free header parses successfully. -/
theorem c4_duplicate_header_code_eval :
    tokenize "a,a" = ["a", "a"] ∧
    loadLoader ["a,a"] = .ok { header := ["a", "a"], data := [] } ∧
    loadLoader ["a,a,b"] = .error "csv-file contains multiple columns with the same name!" ∧
    loadLoader ["a,b,c", "1,2"] = .ok { header := ["a", "b", "c"], data := [["1", "2", ""]] } :=
  ⟨rfl, rfl, rfl, rfl⟩

/-- C7: `convert<T>` maps the empty string to numeric zero on both paths.  In
the extraction path (`T` a plain arithmetic type, here modelled by `int`) the
dedicated `is_arithmetic && empty` branch assigns 0; in the comparison path
`T` is deduced as a const reference, `std::is_arithmetic_v<T>` is false, and
the empty string goes through stream extraction, which fails and stores 0
(the value the variable was also value-initialised to). -/
theorem c7_empty_string_zero :
    convertIntVal "" = 0 ∧ convertIntRef "" = 0 :=
  ⟨rfl, rfl⟩

/-- C10: typed conversion is total and never raises; whenever stream
extraction fails entirely (no digits after the optional sign), both
conversion paths yield zero. -/
theorem c10_malformed_zero (s : String) (h : extractionFails s = true) :
    convertIntVal s = 0 ∧ convertIntRef s = 0 := by
  have hn : sstreamIntCore s.toList = none := by
    simp only [extractionFails, Option.isNone_iff_eq_none] at h
    exact h
  refine ⟨?_, ?_⟩
  · rw [convertIntVal]
    split
    · rfl
    · rw [sstreamInt, hn]
      rfl
  · rw [convertIntRef, sstreamInt, hn]
    rfl

/-- Witness for C10 at the malformed cell "abc". -/
theorem c10_witness :
    extractionFails "abc" = true ∧ convertIntVal "abc" = 0 ∧ convertIntRef "abc" = 0 :=
  ⟨rfl, (c10_malformed_zero "abc" rfl).1, (c10_malformed_zero "abc" rfl).2⟩

/-- C1 (counterexample): over the storage with header `[colA, colB]` and the
single row `["1", "2"]`, projecting by `("colB", "colA")` and then iterating
the row yields `["1", "2"]` — colA's cell first, i.e. header/storage order —
whereas the claim requires colB's cell before colA's cell (`["2", "1"]`).
The projected view records the selection only in a boolean mask, so the order
the names were given is lost. -/
theorem c1_counterexample :
    (project { loader := { header := ["colA", "colB"], data := [["1", "2"]] },
               rowMask := [true], colMask := [true, true] } ["colB", "colA"]).map
        (fun f => maskedFilter ["1", "2"] f.colMask) = .ok ["1", "2"] ∧
    (["1", "2"] : List String) ≠ ["2", "1"] :=
  ⟨rfl, by decide⟩

/-- C6: every stored row of a successfully loaded file has exactly the header
length, and `extract_line` with an expected size pads a shorter token list at
the end with empty strings and truncates a longer one to its first `n`
cells. -/
theorem c6_rectangularize :
    (∀ lines L, loadLoader lines = .ok L → ∀ row ∈ L.data, row.length = L.header.length) ∧
    (∀ line n, (extractLine line (some n)).length = n ∧
      ((tokenize line).length ≤ n →
        extractLine line (some n) = tokenize line ++ List.replicate (n - (tokenize line).length) "") ∧
      (n ≤ (tokenize line).length →
        extractLine line (some n) = (tokenize line).take n)) := by
  have hlen : ∀ (l : List String) (n : Nat), (resizeCpp l n).length = n := by
    intro l n
    simp only [resizeCpp, List.length_append, List.length_take, List.length_replicate]
    omega
  constructor
  · intro lines L h row hrow
    rw [loadLoader] at h
    split at h
    · exact Except.noConfusion h
    · injection h with h2
      subst h2
      simp only [List.mem_map] at hrow
      obtain ⟨l, -, rfl⟩ := hrow
      exact hlen _ _
  · intro line n
    refine ⟨hlen _ _, ?_, ?_⟩
    · intro hle
      simp [extractLine, resizeCpp, List.take_of_length_le hle]
    · intro hge
      simp [extractLine, resizeCpp, Nat.sub_eq_zero_of_le hge]

/-- Witness for C6: the spec's own examples, a short row `1,2` against a
3-column header and a long row `1,2,3,4`. -/
theorem c6_witness :
    extractLine "1,2" (some 3) = ["1", "2", ""] ∧
    extractLine "1,2,3,4" (some 3) = ["1", "2", "3"] := by
  constructor
  · rw [(c6_rectangularize.2 "1,2" 3).2.1 (by decide)]
    rfl
  · rw [(c6_rectangularize.2 "1,2,3,4" 3).2.2 (by decide)]
    rfl

/-- C9: a comparison filter only narrows the row mask — every row active in
the result was active in the input view, for every predicate and target
tuple. -/
theorem c9_filter_narrows (df : Frame) (pred : Int → Int → Bool) (targets : List Int)
    (f : Frame) (h : rowWiseComparison df pred targets = .ok f) (i : Nat)
    (hi : f.rowMask[i]? = some true) : df.rowMask[i]? = some true := by
  rw [rowWiseComparison] at h
  split at h
  · exact Except.noConfusion h
  · injection h with h2
    subst h2
    rw [zip_map_getElem?] at hi
    cases hx : df.rowMask[i]? with
    | none => rw [hx] at hi; exact Option.noConfusion hi
    | some x =>
      rw [hx] at hi
      cases hy : df.loader.data[i]? with
      | none => rw [hy] at hi; exact Option.noConfusion hi
      | some row =>
        rw [hy] at hi
        simp only [Option.bind_some, Option.map_some'] at hi
        have hx2 := Option.some.inj hi
        rw [((Bool.and_eq_true _ _).mp hx2).1]

/-- Witness for C9 on a concrete two-row frame and the `<`-filter. -/
theorem c9_witness :
    rowWiseComparison
        { loader := { header := ["a", "b"], data := [["1", "2"], ["10", "20"]] },
          rowMask := [true, true], colMask := [true, true] }
        (fun a b => decide (a < b)) [10, 10] =
      .ok { loader := { header := ["a", "b"], data := [["1", "2"], ["10", "20"]] },
            rowMask := [true, false], colMask := [true, true] } ∧
    ({ loader := { header := ["a", "b"], data := [["1", "2"], ["10", "20"]] },
       rowMask := [true, true], colMask := [true, true] } : Frame).rowMask[0]? = some true := by
  refine ⟨rfl, ?_⟩
  exact c9_filter_narrows
    { loader := { header := ["a", "b"], data := [["1", "2"], ["10", "20"]] },
      rowMask := [true, true], colMask := [true, true] }
    (fun a b => decide (a < b)) [10, 10]
    { loader := { header := ["a", "b"], data := [["1", "2"], ["10", "20"]] },
      rowMask := [true, false], colMask := [true, true] }
    rfl 0 rfl

/-- C5: for two views over the identical storage (modelled as equal loaders,
with the equal-length row masks every such pair has), `operator&&` yields the
pointwise AND of the row masks and `operator||` the pointwise OR, and both
take the column mask from the left operand only. -/
theorem c5_logical_combination (a b : Frame) (hload : a.loader = b.loader)
    (hlen : a.rowMask.length = b.rowMask.length) :
    andFrame a b = .ok { loader := a.loader,
                         rowMask := List.zipWith (fun x y => x && y) a.rowMask b.rowMask,
                         colMask := a.colMask } ∧
    orFrame a b = .ok { loader := a.loader,
                        rowMask := List.zipWith (fun x y => x || y) a.rowMask b.rowMask,
                        colMask := a.colMask } ∧
    (∀ (i : Nat), (List.zipWith (fun x y => x && y) a.rowMask b.rowMask)[i]? = some true ↔
        (a.rowMask[i]? = some true ∧ b.rowMask[i]? = some true)) ∧
    (∀ (i : Nat), (List.zipWith (fun x y => x || y) a.rowMask b.rowMask)[i]? = some true ↔
        (a.rowMask[i]? = some true ∨ b.rowMask[i]? = some true)) := by
  have hpoint : ∀ (f : Bool → Bool → Bool) (i : Nat),
      (List.zipWith f a.rowMask b.rowMask)[i]? = some true ↔
        ∃ x y, a.rowMask[i]? = some x ∧ b.rowMask[i]? = some y ∧ f x y = true := by
    intro f i
    rw [zipWith_getElem?]
    cases hx : a.rowMask[i]? with
    | none => simp
    | some x =>
      obtain ⟨hilt, -⟩ := List.getElem?_eq_some.mp hx
      have hy : b.rowMask[i]? = some b.rowMask[i] :=
        List.getElem?_eq_getElem (hlen ▸ hilt)
      rw [hy]
      simp
  refine ⟨?_, ?_, ?_, ?_⟩
  · rw [andFrame, if_neg (not_not_intro hload)]
  · rw [orFrame, if_neg (not_not_intro hload)]
  · intro i
    rw [hpoint]
    constructor
    · rintro ⟨x, y, hx, hy, hf⟩
      obtain ⟨h1, h2⟩ := Bool.and_eq_true x y |>.mp hf
      exact ⟨h1 ▸ hx, h2 ▸ hy⟩
    · rintro ⟨hx, hy⟩
      exact ⟨true, true, hx, hy, rfl⟩
  · intro i
    rw [hpoint]
    constructor
    · rintro ⟨x, y, hx, hy, hf⟩
      rcases Bool.or_eq_true x y |>.mp hf with h1 | h2
      · exact Or.inl (h1 ▸ hx)
      · exact Or.inr (h2 ▸ hy)
    · rintro (hx | hy)
      · obtain ⟨hilt, -⟩ := List.getElem?_eq_some.mp hx
        have hy2 : b.rowMask[i]? = some b.rowMask[i] :=
          List.getElem?_eq_getElem (hlen ▸ hilt)
        exact ⟨true, b.rowMask[i], hx, hy2, rfl⟩
      · obtain ⟨hilt, -⟩ := List.getElem?_eq_some.mp hy
        have hx2 : a.rowMask[i]? = some a.rowMask[i] :=
          List.getElem?_eq_getElem (hlen.symm ▸ hilt)
        exact ⟨a.rowMask[i], true, hx2, hy, by simp⟩

/-- Witness for C5 on two concrete views of one storage: row masks
`[true, false]` and `[true, true]` combine to `[true, false]` under AND and
`[true, true]` under OR, keeping the left column mask `[true, false]`. -/
theorem c5_witness :
    andFrame { loader := { header := ["a", "b"], data := [["1", "2"], ["3", "4"]] },
               rowMask := [true, false], colMask := [true, false] }
             { loader := { header := ["a", "b"], data := [["1", "2"], ["3", "4"]] },
               rowMask := [true, true], colMask := [false, true] } =
      .ok { loader := { header := ["a", "b"], data := [["1", "2"], ["3", "4"]] },
            rowMask := [true, false], colMask := [true, false] } ∧
    orFrame { loader := { header := ["a", "b"], data := [["1", "2"], ["3", "4"]] },
              rowMask := [true, false], colMask := [true, false] }
            { loader := { header := ["a", "b"], data := [["1", "2"], ["3", "4"]] },
              rowMask := [true, true], colMask := [false, true] } =
      .ok { loader := { header := ["a", "b"], data := [["1", "2"], ["3", "4"]] },
            rowMask := [true, true], colMask := [true, false] } := by
  have h := c5_logical_combination
    { loader := { header := ["a", "b"], data := [["1", "2"], ["3", "4"]] },
      rowMask := [true, false], colMask := [true, false] }
    { loader := { header := ["a", "b"], data := [["1", "2"], ["3", "4"]] },
      rowMask := [true, true], colMask := [false, true] }
    rfl (by decide)
  exact ⟨h.1, h.2.1⟩

/-- C2: when the active column count equals the tuple arity, a comparison
filter keeps an active row iff the predicate holds for every (converted cell,
target) pair of that row — the per-column results are combined by logical AND
— and the result is a view over the same storage with the column mask
unchanged.  The mask/storage length equality is the invariant every view
constructed by the library maintains. -/
theorem c2_comparison_conjunction (df : Frame) (pred : Int → Int → Bool)
    (targets : List Int) (hArity : countTrue df.colMask = targets.length)
    (hLen : df.rowMask.length = df.loader.data.length) :
    ∃ f, rowWiseComparison df pred targets = .ok f ∧
      f.loader = df.loader ∧ f.colMask = df.colMask ∧
      ∀ i, (f.rowMask[i]? = some true ↔
        (df.rowMask[i]? = some true ∧
          ∀ p ∈ (rowAsStrArray targets.length (df.loader.data.getD i []) df.colMask).zip targets,
            pred (convertIntRef p.1) p.2 = true)) := by
  refine ⟨{ loader := df.loader,
            rowMask := (df.rowMask.zip df.loader.data).map
              (fun p => p.1 && compareTupleAndStringArray pred targets
                (rowAsStrArray targets.length p.2 df.colMask)),
            colMask := df.colMask }, ?_, rfl, rfl, ?_⟩
  · rw [rowWiseComparison, if_neg (not_not_intro hArity)]
  intro i
  dsimp only
  rw [zip_map_getElem?]
  cases hx : df.rowMask[i]? with
  | none => simp
  | some x =>
    obtain ⟨hilt, -⟩ := List.getElem?_eq_some.mp hx
    have hi2 : i < df.loader.data.length := hLen ▸ hilt
    have hgd : df.loader.data.getD i [] = df.loader.data[i] := by
      simp [List.getElem?_eq_getElem hi2]
    rw [List.getElem?_eq_getElem hi2, hgd]
    simp [compareTupleAndStringArray, Bool.and_eq_true, List.all_eq_true]

/-- Witness for C2: the spec's example table `(1,2),(10,20),(100,200)` with
the `<`-filter against `(10, 10)`. -/
theorem c2_witness :
    ∃ f, rowWiseComparison
        { loader := { header := ["colA", "colB"],
                      data := [["1", "2"], ["10", "20"], ["100", "200"]] },
          rowMask := [true, true, true], colMask := [true, true] }
        (fun a b => decide (a < b)) [10, 10] = .ok f ∧
      f.loader = { header := ["colA", "colB"],
                   data := [["1", "2"], ["10", "20"], ["100", "200"]] } ∧
      f.colMask = [true, true] ∧
      ∀ (i : Nat), (f.rowMask[i]? = some true ↔
        (([true, true, true] : List Bool)[i]? = some true ∧
          ∀ p ∈ (rowAsStrArray 2
              ([["1", "2"], ["10", "20"], ["100", "200"]].getD i []) [true, true]).zip
              ([10, 10] : List Int),
            decide (convertIntRef p.1 < p.2) = true)) :=
  c2_comparison_conjunction
    { loader := { header := ["colA", "colB"],
                  data := [["1", "2"], ["10", "20"], ["100", "200"]] },
      rowMask := [true, true, true], colMask := [true, true] }
    (fun a b => decide (a < b)) [10, 10] (by decide) (by decide)


/-! ### Lemmas for the projection claim -/

/-- `headerMapAt` fails exactly on names absent from the header. -/
theorem headerMapAt_eq_none {t : List String} {nm : String} (h : nm ∉ t) :
    headerMapAt t nm = none := by
  induction t with
  | nil => rfl
  | cons x xs ih =>
    have h1 : nm ∉ xs := fun hx => h (List.mem_cons_of_mem x hx)
    have h2 : x ≠ nm := fun hx => h (List.mem_cons.mpr (Or.inl hx.symm))
    rw [headerMapAt, ih h1, if_neg h2]

/-- Pointwise OR with an everywhere-false indicator is the identity. -/
theorem zipWith_or_of_false {α : Type} (t : List α) (m : List Bool) (p : α → Bool)
    (hlen : m.length = t.length) (hp : ∀ x ∈ t, p x = false) :
    List.zipWith (fun x y => x || y) m (t.map p) = m := by
  induction t generalizing m with
  | nil =>
    cases m with
    | nil => rfl
    | cons b bs => exact absurd hlen (by simp)
  | cons x xs ih =>
    cases m with
    | nil => exact absurd hlen (by simp)
    | cons b bs =>
      simp only [List.map_cons, List.zipWith_cons_cons]
      rw [hp x (List.mem_cons_self x xs), Bool.or_false]
      rw [ih bs (by simpa using hlen) (fun y hy => hp y (List.mem_cons_of_mem x hy))]

/-- Setting the bit `headerMapAt` returns equals ORing with the one-name
indicator mask, when the header has no duplicates. -/
theorem set_headerMapAt_eq_or (header : List String) (m : List Bool) (nm : String)
    (hnd : header.Nodup) (hmem : nm ∈ header) (hlen : m.length = header.length) :
    ∃ i, headerMapAt header nm = some i ∧
      m.set i true = List.zipWith (fun x y => x || y) m
        (header.map (fun h => decide (h = nm))) := by
  induction header generalizing m with
  | nil => exact absurd hmem (List.not_mem_nil nm)
  | cons h t ih =>
    obtain ⟨hht, hndt⟩ := List.nodup_cons.mp hnd
    cases m with
    | nil => exact absurd hlen (by simp)
    | cons b bs =>
      by_cases hmt : nm ∈ t
      · obtain ⟨i, hmap, hset⟩ := ih bs hndt hmt (by simpa using hlen)
        refine ⟨i + 1, ?_, ?_⟩
        · rw [headerMapAt, hmap]
        · have hne : decide (h = nm) = false := by
            simp only [decide_eq_false_iff_not]
            intro he
            exact hht (he ▸ hmt)
          simp only [List.map_cons, List.zipWith_cons_cons, List.set_cons_succ, hne,
            Bool.or_false, hset]
      · have hnm : h = nm := by
          rcases List.mem_cons.mp hmem with he | ht
          · exact he.symm
          · exact absurd ht hmt
        refine ⟨0, ?_, ?_⟩
        · rw [headerMapAt, headerMapAt_eq_none hmt, if_pos hnm]
        · have hhd : decide (h = nm) = true := by simp [hnm]
          rw [List.set_cons_zero]
          simp only [List.map_cons, List.zipWith_cons_cons, hhd, Bool.or_true]
          congr 1
          exact (zipWith_or_of_false t bs (fun x => decide (x = nm))
            (by simpa using hlen)
            (fun x hx => by
              simp only [decide_eq_false_iff_not]
              intro he
              exact hmt (he ▸ hx))).symm

/-- Zip-with-OR of two indicator maps over one list is the indicator of the
pointwise disjunction. -/
theorem zipWith_or_map_map {α : Type} (t : List α) (f g : α → Bool) :
    List.zipWith (fun x y => x || y) (t.map f) (t.map g) =
      t.map (fun x => f x || g x) := by
  induction t with
  | nil => rfl
  | cons x xs ih => simp [ih]

/-- Associativity of the pointwise OR of masks. -/
theorem zipWith_or_assoc (m a b : List Bool) :
    List.zipWith (fun x y => x || y) (List.zipWith (fun x y => x || y) m a) b =
      List.zipWith (fun x y => x || y) m (List.zipWith (fun x y => x || y) a b) := by
  induction m generalizing a b with
  | nil => rfl
  | cons x xs ih =>
    cases a with
    | nil => rfl
    | cons y ys =>
      cases b with
      | nil => rfl
      | cons z zs => simp [Bool.or_assoc, ih]

/-- The fold of `projMask`, started from an arbitrary mask of header length,
ORs the start mask with the membership indicator of the names — provided the
header is duplicate-free and every name occurs in it. -/
theorem projMask_foldl (header : List String) (names : List String) (m : List Bool)
    (hnd : header.Nodup) (hsub : ∀ nm ∈ names, nm ∈ header)
    (hlen : m.length = header.length) :
    names.foldl (projStep header) (some m) =
      some (List.zipWith (fun x y => x || y) m
        (header.map (fun h => decide (h ∈ names)))) := by
  induction names generalizing m with
  | nil =>
    rw [List.foldl_nil]
    rw [zipWith_or_of_false header m (fun h => decide (h ∈ ([] : List String))) hlen
      (fun x _ => by simp)]
  | cons nm names' ih =>
    obtain ⟨i, hmap, hset⟩ := set_headerMapAt_eq_or header m nm hnd
      (hsub nm (List.mem_cons_self nm names')) hlen
    rw [List.foldl_cons]
    have hstep : projStep header (some m) nm = some (m.set i true) := by
      simp only [projStep, hmap]
    rw [hstep]
    rw [ih (m.set i true) (fun x hx => hsub x (List.mem_cons_of_mem nm hx))
      (by simpa using hlen)]
    rw [hset, zipWith_or_assoc]
    rw [zipWith_or_map_map header (fun h => decide (h = nm)) (fun h => decide (h ∈ names'))]
    have hmaps : List.map (fun x => decide (x = nm) || decide (x ∈ names')) header =
        List.map (fun h => decide (h ∈ nm :: names')) header := by
      simp only [List.mem_cons, Bool.decide_or]
    rw [hmaps]

/-- Pointwise OR with an all-false start mask is the identity. -/
theorem zipWith_or_replicate_false (a : List Bool) :
    List.zipWith (fun x y => x || y) (List.replicate a.length false) a = a := by
  induction a with
  | nil => rfl
  | cons x xs ih => simp [List.replicate_succ, ih]

/-- Counting: the membership indicator over a duplicate-free header has
exactly one set bit per (distinct, present) name. -/
theorem countTrue_indicator (header names : List String) (hnd : header.Nodup)
    (hnn : names.Nodup) (hsub : ∀ nm ∈ names, nm ∈ header) :
    countTrue (header.map (fun h => decide (h ∈ names))) = names.length := by
  rw [countTrue, List.count_eq_countP, List.countP_map]
  have hco : ((fun x => x == true) ∘ fun h => decide (h ∈ names)) =
      fun h => decide (h ∈ names) := by
    funext h
    simp
  rw [hco, List.countP_eq_length_filter]
  have hperm : (header.filter (fun h => decide (h ∈ names))).Perm names := by
    rw [List.perm_ext_iff_of_nodup (hnd.filter _) hnn]
    intro a
    simp only [List.mem_filter, decide_eq_true_eq]
    exact ⟨fun ha => ha.2, fun ha => ⟨hsub a ha, ha⟩⟩
  exact hperm.length_eq

/-- C1 (amended): projecting a view by a sequence of distinct header names
succeeds and yields the same storage and row mask together with the column
mask that marks exactly the named columns; traversal of any row through that
mask visits the selected cells in header/storage order — the order the names
were given is not recorded and does not influence the visible sequence. -/
theorem c1_projection_storage_order (df : Frame) (names : List String)
    (hw : df.colMask.length = df.loader.header.length)
    (hnd : df.loader.header.Nodup) (hnn : names.Nodup)
    (hsub : ∀ nm ∈ names, nm ∈ df.loader.header) :
    project df names = .ok { loader := df.loader
                             rowMask := df.rowMask
                             colMask := df.loader.header.map
                               (fun h => decide (h ∈ names)) } ∧
    ∀ (row : List String),
      maskedFilter row (df.loader.header.map (fun h => decide (h ∈ names))) =
        (row.zip df.loader.header).filterMap
          (fun p => if p.2 ∈ names then some p.1 else none) := by
  constructor
  · have hmask : projMask df.loader.header df.colMask.length names =
        some (df.loader.header.map (fun h => decide (h ∈ names))) := by
      rw [projMask, hw]
      have hstart : (List.replicate df.loader.header.length false).length =
          df.loader.header.length := by simp
      rw [projMask_foldl df.loader.header names _ hnd hsub hstart]
      have hrep : List.replicate df.loader.header.length false =
          List.replicate (df.loader.header.map (fun h => decide (h ∈ names))).length
            false := by simp
      rw [hrep, zipWith_or_replicate_false]
    simp only [project, hmask]
    rw [if_neg (not_not_intro (countTrue_indicator df.loader.header names hnd hnn hsub))]
  · intro row
    rw [maskedFilter, List.zip_map_right, List.filterMap_map]
    congr 1
    funext p
    by_cases hp : p.2 ∈ names
    · simp [hp]
    · simp [hp]

/-- Witness for C1 on a concrete view: projecting `("colB", "colA")` marks
both columns and iterating the single row yields its cells in storage
order. -/
theorem c1_witness :
    project { loader := { header := ["colA", "colB"], data := [["1", "2"]] },
              rowMask := [true], colMask := [true, true] } ["colB", "colA"] =
      .ok { loader := { header := ["colA", "colB"], data := [["1", "2"]] },
            rowMask := [true], colMask := [true, true] } ∧
    maskedFilter ["1", "2"] [true, true] = ["1", "2"] := by
  have h := c1_projection_storage_order
    { loader := { header := ["colA", "colB"], data := [["1", "2"]] },
      rowMask := [true], colMask := [true, true] }
    ["colB", "colA"] (by decide) (by decide) (by decide) (by decide)
  exact ⟨h.1, rfl⟩

end Mcsv
